import Mathlib

/-!
Verification of the networkcommons styling-and-subnetwork core.

This file shallowly embeds the Python sources
`networkcommons/utils.py` and `networkcommons/_visual/vis_networkx.py`:
Python dicts become association lists (`AttrMap`), networkx graphs become
`Graph` records, pygraphviz agraphs become `AGraph` records, and code that
can raise returns `Except Err`.  The styles module
(`networkcommons/_visual/styles.py`: `get_styles`, `merge_styles`,
`set_style_attributes`) is not part of the sources and is modelled from the
specification, as marked on the corresponding definitions.
-/

set_option autoImplicit false

namespace NetworkCommons

/-- Attribute values stored on graph elements and in styles: Python ints,
strings, and (nested) dicts. -/
inductive SVal where
  | i (n : Int)
  | s (str : String)
  | m (entries : List (String × SVal))

mutual

/-- Decidable equality for `SVal`, by structural recursion. -/
def SVal.decEq : (a b : SVal) → Decidable (a = b)
  | .i n, .i n' =>
      if h : n = n' then isTrue (by rw [h])
      else isFalse (by intro hh; injection hh; contradiction)
  | .i _, .s _ => isFalse nofun
  | .i _, .m _ => isFalse nofun
  | .s _, .i _ => isFalse nofun
  | .s a, .s b =>
      if h : a = b then isTrue (by rw [h])
      else isFalse (by intro hh; injection hh; contradiction)
  | .s _, .m _ => isFalse nofun
  | .m _, .i _ => isFalse nofun
  | .m _, .s _ => isFalse nofun
  | .m es, .m fs =>
      match SVal.decEqEntries es fs with
      | isTrue h => isTrue (by rw [h])
      | isFalse h => isFalse (by intro hh; injection hh; contradiction)

/-- Decidable equality for `SVal` entry lists. -/
def SVal.decEqEntries : (a b : List (String × SVal)) → Decidable (a = b)
  | [], [] => isTrue rfl
  | [], _ :: _ => isFalse nofun
  | _ :: _, [] => isFalse nofun
  | (k, v) :: rest, (k', v') :: rest' =>
      if hk : k = k' then
        match SVal.decEq v v' with
        | isTrue hv =>
            match SVal.decEqEntries rest rest' with
            | isTrue hr => isTrue (by rw [hk, hv, hr])
            | isFalse hr => isFalse (by intro hh; injection hh with h1 h2; exact hr h2)
        | isFalse hv =>
            isFalse (by intro hh; injection hh with h1 h2; cases h1; exact hv rfl)
      else
        isFalse (by intro hh; injection hh with h1 h2; cases h1; exact hk rfl)

end

instance : DecidableEq SVal := SVal.decEq

/-- Decidable equality for `Except`, needed to evaluate concrete runs. -/
instance {ε α : Type} [DecidableEq ε] [DecidableEq α] : DecidableEq (Except ε α)
  | .ok a, .ok b =>
      if h : a = b then isTrue (by rw [h])
      else isFalse (by intro hh; injection hh; contradiction)
  | .ok _, .error _ => isFalse nofun
  | .error _, .ok _ => isFalse nofun
  | .error a, .error b =>
      if h : a = b then isTrue (by rw [h])
      else isFalse (by intro hh; injection hh; contradiction)

/-- A Python dict with string keys, as an insertion-ordered association list. -/
abbrev AttrMap := List (String × SVal)

/-- Dict lookup (`d[k]` / `d.get(k)`): first entry with the key. -/
def attrGet : AttrMap → String → Option SVal
  | [], _ => none
  | (k', v) :: rest, k => if k' = k then some v else attrGet rest k

/-- Dict write `d[k] = v`: update the entry in place, or append a new one. -/
def attrSet : AttrMap → String → SVal → AttrMap
  | [], k, v => [(k, v)]
  | (k', v') :: rest, k, v =>
      if k' = k then (k, v) :: rest else (k', v') :: attrSet rest k v

/-- Dict delete (`d.pop(k)` discarding the value). -/
def attrRemove : AttrMap → String → AttrMap
  | [], _ => []
  | (k', v) :: rest, k =>
      if k' = k then attrRemove rest k else (k', v) :: attrRemove rest k

/-- `base.update(upd)`: write every entry of `upd` onto `base`. -/
def attrUpdate (base upd : AttrMap) : AttrMap :=
  upd.foldl (fun m kv => attrSet m kv.1 kv.2) base

/-- Failures raised by the embedded code, named after the spec's taxonomy.
`missingEdge` is the failure raised when `get_edge_data` returns `None`
(in Python a `TypeError` at the `**edge_data` call site);
`missingAttribute` is the `KeyError` on `edge_data['sign']`;
`unmappedColor` is the `KeyError` on an edge-color lookup;
`unboundLocal` is Python's `UnboundLocalError`. -/
inductive Err where
  | missingEdge (u v : String)
  | missingAttribute
  | unmappedColor
  | unboundLocal
  deriving DecidableEq

/-- A networkx edge: endpoints plus its attribute dict. -/
structure Edge where
  src : String
  dst : String
  attrs : AttrMap
  deriving DecidableEq

/-- A networkx graph (`nx.Graph` / `nx.DiGraph`): directedness flag, nodes
with their attribute dicts, and edges. -/
structure Graph where
  directed : Bool
  nodes : List (String × AttrMap)
  edges : List Edge
  deriving DecidableEq

/-- Whether the unordered-or-ordered endpoint pair `(u, v)` denotes the same
edge slot as `(x, y)`: equality for directed graphs, equality up to swap for
undirected ones. -/
def sameKey (directed : Bool) (u v x y : String) : Bool :=
  (u == x && v == y) || (!directed && u == y && v == x)

/-- Whether edge `e` occupies the `(u, v)` slot of a graph with the given
directedness. -/
def edgeMatches (directed : Bool) (e : Edge) (u v : String) : Bool :=
  sameKey directed e.src e.dst u v

/-- `network.get_edge_data(u, v)`: the attribute dict of the `(u, v)` edge,
or `None`. -/
def getEdgeData (g : Graph) (u v : String) : Option AttrMap :=
  (g.edges.find? (fun e => edgeMatches g.directed e u v)).map Edge.attrs

/-- Mutate the `(u, v)` edge's (shared) attribute dict with `f`; the model of
in-place writes to the dict returned by `get_edge_data`. -/
def setEdgeAttrsWith (g : Graph) (u v : String) (f : AttrMap → AttrMap) : Graph :=
  { g with
    edges := g.edges.map (fun e =>
      if edgeMatches g.directed e u v then { e with attrs := f e.attrs } else e) }

/-- Register a node if it is not present yet (as `add_edge` does). -/
def addNode (g : Graph) (n : String) : Graph :=
  if g.nodes.any (fun p => p.1 == n) then g
  else { g with nodes := g.nodes ++ [(n, [])] }

/-- `g.add_edge(u, v, **d)`: ensure both endpoints exist, then either update
the existing edge's dict with `d` or append a fresh edge carrying `d`. -/
def addEdge (g : Graph) (u v : String) (d : AttrMap) : Graph :=
  let g₁ := addNode (addNode g u) v
  if g₁.edges.any (fun e => edgeMatches g₁.directed e u v) then
    setEdgeAttrsWith g₁ u v (fun old => attrUpdate old d)
  else
    { g₁ with edges := g₁.edges ++ [⟨u, v, d⟩] }

/-- The consecutive pairs `(path[i], path[i+1])` of a node sequence. -/
def consecPairs : List String → List (String × String)
  | a :: b :: rest => (a, b) :: consecPairs (b :: rest)
  | _ => []

/-- Inner loop of `get_subnetwork`: add every consecutive pair of one path,
failing when the parent graph has no such edge. -/
def addPathEdges (network : Graph) : Graph → List (String × String) → Except Err Graph
  | sub, [] => .ok sub
  | sub, (a, b) :: rest =>
    match getEdgeData network a b with
    | none => .error (.missingEdge a b)
    | some d => addPathEdges network (addEdge sub a b d) rest

/-- Outer loop of `get_subnetwork` over the path list. -/
def subnetLoop (network : Graph) : Graph → List (List String) → Except Err Graph
  | sub, [] => .ok sub
  | sub, p :: rest =>
    match addPathEdges network sub (consecPairs p) with
    | .error e => .error e
    | .ok sub' => subnetLoop network sub' rest

/-- `utils.get_subnetwork(network, paths)`: build the subnetwork containing
exactly the edges traversed by the paths, copying parent attributes. -/
def get_subnetwork (network : Graph) (paths : List (List String)) : Except Err Graph :=
  subnetLoop network ⟨network.directed, [], []⟩ paths

/-- `edge_data['sign'] = edge_data.pop('interaction')`: remove the
`interaction` key and store its value under `sign`. -/
def renameInteraction (d : AttrMap) : AttrMap :=
  match attrGet d "interaction" with
  | some v => attrSet (attrRemove d "interaction") "sign" v
  | none => d

/-- A row of the input table: source and target cell plus the remaining
attribute columns. -/
structure Row where
  src : String
  dst : String
  attrs : AttrMap
  deriving DecidableEq

/-- The input table of `read_network_from_file`, after the external
`pd.read_csv` call: the attribute columns beyond source/target, and rows. -/
structure DFrame where
  extraCols : List String
  rows : List Row
  deriving DecidableEq

/-- Whether a row's `weight` cell is a negative number
(one disjunct of `(network_df['weight'] < 0).any()`). -/
def rowWeightNeg (r : Row) : Bool :=
  match attrGet r.attrs "weight" with
  | some (.i w) => w < 0
  | _ => false

/-- `nx.from_pandas_edgelist(df, edge_attr=True)`: add each row as an edge
carrying all attribute columns; later duplicate rows update earlier ones. -/
def dfGraph (df : DFrame) (directed : Bool) : Graph :=
  df.rows.foldl (fun g r => addEdge g r.src r.dst r.attrs) ⟨directed, [], []⟩

/-- The per-edge body of the weight-normalization loop:
`data['sign'] = 1 if weight >= 0 else -1; data['weight'] = abs(weight)`. -/
def normalizeEdgeAttrs (d : AttrMap) : AttrMap :=
  match attrGet d "weight" with
  | some (.i w) =>
      attrSet (attrSet d "sign" (.i (if 0 ≤ w then 1 else -1))) "weight" (.i |w|)
  | _ => d

/-- `utils.read_network_from_file`, modelled from the parsed table on
(`pd.read_csv` is an external collaborator): build the edge list, and when
attribute columns exist, a `weight` column is present and some weight is
negative, rewrite every edge's weight to its absolute value and record the
original sign in a `sign` attribute. -/
def read_network_from_file (df : DFrame) (directed : Bool) : Graph :=
  if df.extraCols = [] then
    df.rows.foldl (fun g r => addEdge g r.src r.dst []) ⟨directed, [], []⟩
  else
    let network := dfGraph df directed
    if "weight" ∈ df.extraCols ∧ df.rows.any rowWeightNeg then
      { network with
        edges := network.edges.map (fun e => { e with attrs := normalizeEdgeAttrs e.attrs }) }
    else network

/-! Section: The styles module (spec-modelled) and the visualizer. -/

mutual

/-- Modelled from the spec: the deep union of two nested style mappings —
override values win, keys absent in the override are inherited, recursing
through every nesting level (styles module is not in the sources, §3/§4.1). -/
def svalMerge : SVal → SVal → SVal
  | b, o =>
    match b, o with
    | .m bs, .m os => .m (mergeEntries bs os)
    | _, _ => o

/-- Deep-merge an override entry list into a base entry list: each override
entry is merged into the base entry of the same key, or appended. -/
def mergeEntries (bs : List (String × SVal)) : List (String × SVal) → List (String × SVal)
  | [] => bs
  | (k, v) :: rest =>
      mergeEntries (attrSet bs k (match attrGet bs k with
        | some bv => svalMerge bv v
        | none => v)) rest

end

/-- Modelled from the spec: `merge_styles(base, custom)` of the missing styles
module — the base preset unchanged when the override is absent, otherwise the
deep union where override values win (§4.1). -/
def merge_styles (base : SVal) (custom : Option SVal) : SVal :=
  match custom with
  | none => base
  | some o => svalMerge base o

/-- Nested-dict lookup `s.get(k)`: `none` when absent or not a dict. -/
def svalFind (s : SVal) (k : String) : Option SVal :=
  match s with
  | .m es => attrGet es k
  | _ => none

/-- Nested-dict lookup `s[k]`, defaulting to an empty dict; the presets
carry every key this is used on. -/
def dget (s : SVal) (k : String) : SVal :=
  (svalFind s k).getD (.m [])

/-- Python truthiness of a style value (`if condition_style:`). -/
def svalTruthy : SVal → Bool
  | .i n => n != 0
  | .s str => str != ""
  | .m es => !es.isEmpty

/-- Write every entry of a style mapping onto an attribute store. -/
def writeEntries (attrs : AttrMap) (style : SVal) : AttrMap :=
  match style with
  | .m es => es.foldl (fun a kv => attrSet a kv.1 kv.2) attrs
  | _ => attrs

/-- Modelled from the spec: `set_style_attributes(item, base_style,
condition_style)` of the missing styles module — writes every key of the base
style, then every key of the condition style, onto the element's attribute
store, so condition attributes take precedence (§4.2). -/
def set_style_attributes (attrs : AttrMap) (base cond : SVal) : AttrMap :=
  writeEntries (writeEntries attrs base) cond

/-- Modelled from the spec: the preset table returned by `get_styles()` of the
missing styles module. The spec fixes the schema (§3) — node roles with
`positive_consistent`/`negative_consistent` sub-styles, edge styles
`positive`/`negative`/`neutral`/`default` — but not the concrete visual
values, so every leaf carries a distinct symbolic value; `nodes.default` also
carries the per-role colors read by `color_nodes` (§4.4). -/
def get_styles : SVal :=
  .m [("default", .m [
        ("nodes", .m [
          ("sources", .m [
            ("fillcolor", .s "default.sources"),
            ("positive_consistent", .m [("fillcolor", .s "default.sources.positive")]),
            ("negative_consistent", .m [("fillcolor", .s "default.sources.negative")])]),
          ("targets", .m [
            ("fillcolor", .s "default.targets"),
            ("positive_consistent", .m [("fillcolor", .s "default.targets.positive")]),
            ("negative_consistent", .m [("fillcolor", .s "default.targets.negative")])]),
          ("other", .m [("fillcolor", .s "default.other")]),
          ("default", .m [
            ("sources", .s "default.color.sources"),
            ("targets", .s "default.color.targets")])]),
        ("edges", .m [
          ("positive", .m [("color", .s "default.edges.positive")]),
          ("negative", .m [("color", .s "default.edges.negative")]),
          ("neutral", .m [("color", .s "default.edges.neutral")]),
          ("default", .s "default.edges.default")])]),
      ("sign_consistent", .m [
        ("nodes", .m [
          ("sources", .m [
            ("fillcolor", .s "sign.sources"),
            ("positive_consistent", .m [("fillcolor", .s "sign.sources.positive")]),
            ("negative_consistent", .m [("fillcolor", .s "sign.sources.negative")])]),
          ("targets", .m [
            ("fillcolor", .s "sign.targets"),
            ("positive_consistent", .m [("fillcolor", .s "sign.targets.positive")]),
            ("negative_consistent", .m [("fillcolor", .s "sign.targets.negative")])]),
          ("other", .m [("fillcolor", .s "sign.other")]),
          ("default", .m [
            ("sources", .s "sign.color.sources"),
            ("targets", .s "sign.color.targets")])]),
        ("edges", .m [
          ("positive", .m [("color", .s "sign.edges.positive")]),
          ("negative", .m [("color", .s "sign.edges.negative")]),
          ("neutral", .m [("color", .s "sign.edges.neutral")]),
          ("default", .s "sign.edges.default")])])]

/-- A pygraphviz node: name plus attribute store. -/
structure ANode where
  name : String
  attrs : AttrMap
  deriving DecidableEq

/-- A pygraphviz edge: endpoints plus attribute store. -/
structure AEdge where
  src : String
  dst : String
  attrs : AttrMap
  deriving DecidableEq

/-- A pygraphviz agraph as produced and styled by the visualizer; the layout
program is recorded when `A.layout(prog=prog)` runs. -/
structure AGraph where
  graph_attr : AttrMap
  nodes : List ANode
  edges : List AEdge
  layoutProg : Option String
  deriving DecidableEq

/-- `nx.nx_agraph.to_agraph(network)`: a fresh agraph copying nodes and edges
with their attributes. -/
def to_agraph (g : Graph) : AGraph :=
  ⟨[], g.nodes.map (fun p => ⟨p.1, p.2⟩), g.edges.map (fun e => ⟨e.src, e.dst, e.attrs⟩), none⟩

/-- Insert into an integer-valued dict, updating in place or appending. -/
def intSet : List (String × Int) → String → Int → List (String × Int)
  | [], k, v => [(k, v)]
  | (k', v') :: rest, k, v =>
      if k' = k then (k, v) :: rest else (k', v') :: intSet rest k v

/-- The flattening comprehension `{sub_key: sub_value for key, value in
target_dict.items() for sub_key, sub_value in value.items()}`; later groups
overwrite earlier ones on key collisions. -/
def flattenTargets (td : List (String × List (String × Int))) : List (String × Int) :=
  td.foldl (fun acc p => p.2.foldl (fun acc' q => intSet acc' q.1 q.2) acc) []

/-- `NetworkXVisualizer.visualize_network_default`: merge the `default` preset
with the custom style, build the agraph, style each node by role-map
membership and every edge with the neutral style, then lay out. -/
def visualize_network_default (network : Graph) (source_dict : List (String × Int))
    (target_dict : List (String × List (String × Int))) (prog : String)
    (custom_style : Option SVal) : AGraph :=
  let default_style := dget get_styles "default"
  let style := merge_styles default_style custom_style
  let A := to_agraph network
  let A := { A with graph_attr := attrSet A.graph_attr "ratio" (.s "1.2") }
  let sources := source_dict.map Prod.fst
  let target_dict_flat := flattenTargets target_dict
  let targets := target_dict_flat.map Prod.fst
  let nodes' := A.nodes.map (fun nd =>
    let base_style :=
      if nd.name ∈ sources then dget (dget style "nodes") "sources"
      else if nd.name ∈ targets then dget (dget style "nodes") "targets"
      else dget (dget style "nodes") "other"
    { nd with attrs := set_style_attributes nd.attrs base_style (.m []) })
  let edges' := A.edges.map (fun e =>
    { e with attrs := set_style_attributes e.attrs (dget (dget style "edges") "neutral") (.m []) })
  { A with nodes := nodes', edges := edges', layoutProg := some prog }

/-- Apply a fetched `positive_consistent`/`negative_consistent` sub-style when
it is present and truthy (`if condition_style:`). -/
def applyCondition (nd : ANode) (condition_style : Option SVal) : ANode :=
  match condition_style with
  | some cs =>
      if svalTruthy cs then { nd with attrs := set_style_attributes nd.attrs (.m []) cs }
      else nd
  | none => nd

/-- One iteration of the sign-consistent node loop. `nodes_type` is the Python
local of the same name: it survives from the previous iteration when the node
is in neither role map, and is unbound (`none`) before the first
classification, in which case reading it raises `UnboundLocalError`. -/
def processNode (style : SVal) (sources targets : List String)
    (target_dict_flat : List (String × Int)) (nodes_type : Option String)
    (nd : ANode) : Except Err (ANode × Option String) :=
  let n := nd.name
  let sign_value : Int := (target_dict_flat.lookup n).getD 1
  let nodes_type' :=
    if n ∈ sources then some "sources"
    else if n ∈ targets then some "targets"
    else nodes_type
  if 0 < sign_value then
    match nodes_type' with
    | none => .error .unboundLocal
    | some t =>
        .ok (applyCondition nd (svalFind (dget (dget style "nodes") t) "positive_consistent"),
             nodes_type')
  else if sign_value < 0 then
    match nodes_type' with
    | none => .error .unboundLocal
    | some t =>
        .ok (applyCondition nd (svalFind (dget (dget style "nodes") t) "negative_consistent"),
             nodes_type')
  else .ok (nd, nodes_type')

/-- The sign-consistent node loop, threading the `nodes_type` local. -/
def nodeLoopSC (style : SVal) (sources targets : List String)
    (tflat : List (String × Int)) : Option String → List ANode → Except Err (List ANode)
  | _, [] => .ok []
  | nt, nd :: rest =>
    match processNode style sources targets tflat nt nd with
    | .error e => .error e
    | .ok (nd', nt') =>
      match nodeLoopSC style sources targets tflat nt' rest with
      | .error e => .error e
      | .ok rest' => .ok (nd' :: rest')

/-- `sign == 1` picks the positive edge style, `sign == -1` the negative one,
anything else the neutral one. -/
def dispatchEdgeStyle (style : SVal) (v : SVal) : SVal :=
  if v = .i 1 then dget (dget style "edges") "positive"
  else if v = .i (-1) then dget (dget style "edges") "negative"
  else dget (dget style "edges") "neutral"

/-- One iteration of the sign-consistent edge loop: read the edge's dict from
the caller's graph, destructively rename `interaction` to `sign` on it, then
style the agraph edge by the sign value.  A missing edge dict is the
`TypeError`/`KeyError` on `edge_data`, a missing `sign` key the `KeyError` on
`edge_data['sign']`. -/
def processEdge (style : SVal) (net : Graph) (e : AEdge) : Except Err (AEdge × Graph) :=
  match getEdgeData net e.src e.dst with
  | none => .error (.missingEdge e.src e.dst)
  | some d₀ =>
    let d := renameInteraction d₀
    let net' := setEdgeAttrsWith net e.src e.dst renameInteraction
    match attrGet d "sign" with
    | none => .error .missingAttribute
    | some v =>
        .ok ({ e with attrs := set_style_attributes e.attrs (dispatchEdgeStyle style v) (.m []) },
             net')

/-- The sign-consistent edge loop, threading the caller's graph through the
in-place renames. -/
def edgeLoopSC (style : SVal) : Graph → List AEdge → Except Err (List AEdge × Graph)
  | net, [] => .ok ([], net)
  | net, e :: rest =>
    match processEdge style net e with
    | .error err => .error err
    | .ok (e', net₁) =>
      match edgeLoopSC style net₁ rest with
      | .error err => .error err
      | .ok (rest', net') => .ok (e' :: rest', net')

/-- `NetworkXVisualizer.visualize_network_sign_consistent`: default-mode pass
with the merged sign-consistent style, then condition styles per node and
sign-dispatched styles per edge.  Returns the styled agraph together with the
caller's graph as it stands after the call (the edge loop mutates it). -/
def visualize_network_sign_consistent (network : Graph) (source_dict : List (String × Int))
    (target_dict : List (String × List (String × Int))) (prog : String)
    (custom_style : Option SVal) : Except Err (AGraph × Graph) :=
  let default_style := dget get_styles "sign_consistent"
  let style := merge_styles default_style custom_style
  let A := visualize_network_default network source_dict target_dict prog (some style)
  let sources := source_dict.map Prod.fst
  let target_dict_flat := flattenTargets target_dict
  let targets := target_dict_flat.map Prod.fst
  match nodeLoopSC style sources targets target_dict_flat none A.nodes with
  | .error e => .error e
  | .ok nodes' =>
    match edgeLoopSC style network A.edges with
    | .error e => .error e
    | .ok (edges', network') => .ok ({ A with nodes := nodes', edges := edges' }, network')

/-- `NetworkXVisualizer.visualize_network`: dispatch on the network type;
every type other than `sign_consistent` runs the default pipeline (the
locally selected preset is computed but never used, as in the source). -/
def visualize_network (network : Graph) (source_dict : List (String × Int))
    (target_dict : List (String × List (String × Int))) (prog : String)
    (network_type : String) (custom_style : Option SVal) : Except Err (AGraph × Graph) :=
  if network_type = "sign_consistent" then
    visualize_network_sign_consistent network source_dict target_dict prog custom_style
  else
    let _default_style := (svalFind get_styles network_type).getD (dget get_styles "default")
    .ok (visualize_network_default network source_dict target_dict prog custom_style, network)

/-- The visualizer object: a copy of the caller's graph, the `color_by`
attribute name, and the default edge-color table. -/
structure NetworkXVisualizer where
  network : Graph
  color_by : String
  edge_colors : SVal
  deriving DecidableEq

/-- `NetworkXVisualizer.__init__`: store a copy of the graph and the default
edge colors. -/
def NetworkXVisualizer.init (network : Graph) (color_by : String) : NetworkXVisualizer :=
  ⟨network, color_by, dget (dget get_styles "default") "edges"⟩

/-- `NetworkXVisualizer.color_nodes`: write the default node color, overridden
by the source color for `type == "source"` nodes and the target color for
`type == "target"` nodes, onto the visualizer's own copy. -/
def color_nodes (vis : NetworkXVisualizer) : NetworkXVisualizer :=
  let default_node_colors := dget (dget (dget get_styles "default") "nodes") "default"
  let source_node_color := dget default_node_colors "sources"
  let target_node_color := dget default_node_colors "targets"
  { vis with network := { vis.network with nodes := vis.network.nodes.map (fun p =>
      let a := attrSet p.2 "color" default_node_colors
      let a := if attrGet a "type" = some (.s "source") then attrSet a "color" source_node_color
               else a
      let a := if attrGet a "type" = some (.s "target") then attrSet a "color" target_node_color
               else a
      (p.1, a)) } }

/-- The color chosen for one edge by `color_edges`: when the `color_by`
attribute is present its value is looked up directly in the edge-color table
(`KeyError` when unmapped — also when the value is not a string key); when it
is absent, the table's `default` entry is used. -/
def edgeColor (edge_colors : SVal) (color_by : String) (d : AttrMap) : Except Err SVal :=
  match attrGet d color_by with
  | some (.s key) =>
    match svalFind edge_colors key with
    | some c => .ok c
    | none => .error .unmappedColor
  | some (.i _) => .error .unmappedColor
  | some (.m _) => .error .unmappedColor
  | none =>
    match svalFind edge_colors "default" with
    | some c => .ok c
    | none => .error .unmappedColor

/-- The `color_edges` loop over the visualizer's edges. -/
def colorEdgesLoop (edge_colors : SVal) (color_by : String) : List Edge → Except Err (List Edge)
  | [] => .ok []
  | e :: rest =>
    match edgeColor edge_colors color_by e.attrs with
    | .error err => .error err
    | .ok c =>
      match colorEdgesLoop edge_colors color_by rest with
      | .error err => .error err
      | .ok rest' => .ok ({ e with attrs := attrSet e.attrs "color" c } :: rest')

/-- `NetworkXVisualizer.color_edges`: color every edge of the visualizer's own
copy by its `color_by` attribute, against the freshly fetched default
edge-color table. -/
def color_edges (vis : NetworkXVisualizer) : Except Err NetworkXVisualizer :=
  let edge_colors := dget (dget get_styles "default") "edges"
  match colorEdgesLoop edge_colors vis.color_by vis.network.edges with
  | .error err => .error err
  | .ok edges' => .ok { vis with network := { vis.network with edges := edges' } }

/-! Section: Measures, accessors and concrete instances used by the theorems. -/

/-- How many edge slots of `g` match the endpoint pair `(u, v)`; a graph
represents a networkx edge set faithfully iff this is at most one
everywhere. -/
def edgeCount (g : Graph) (u v : String) : Nat :=
  (g.edges.filter (fun e => edgeMatches g.directed e u v)).length

/-- The subnetwork under construction is faithful to the parent: same
directedness, and every edge it contains carries exactly the parent's
attribute dict for that edge. -/
def SubFaithful (network sub : Graph) : Prop :=
  sub.directed = network.directed ∧
  ∀ x y : String, ∀ d : AttrMap,
    getEdgeData sub x y = some d → getEdgeData network x y = some d

/-- The styled agraph of a visualization result (junk default on error). -/
def exAGraph (r : Except Err (AGraph × Graph)) : AGraph :=
  match r with
  | .ok p => p.1
  | .error _ => ⟨[], [], [], none⟩

/-- The caller's graph as it stands after a visualization result
(junk default on error). -/
def exGraph (r : Except Err (AGraph × Graph)) : Graph :=
  match r with
  | .ok p => p.2
  | .error _ => ⟨true, [], []⟩

/-- Read one attribute of a named agraph node. -/
def aNodeAttr (A : AGraph) (name key : String) : Option SVal :=
  match A.nodes.find? (fun nd => nd.name == name) with
  | some nd => attrGet nd.attrs key
  | none => none

/-- Read one attribute of an agraph edge. -/
def aEdgeAttr (A : AGraph) (u v key : String) : Option SVal :=
  match A.edges.find? (fun e => e.src == u && e.dst == v) with
  | some e => attrGet e.attrs key
  | none => none

/-- The spec's end-to-end scenario: the directed 3-cycle A→B→C→A with
`interaction` values `1, -1, 1`. -/
def scenarioNetwork : Graph :=
  ⟨true, [("A", []), ("B", []), ("C", [])],
   [⟨"A", "B", [("interaction", .i 1)]⟩,
    ⟨"B", "C", [("interaction", .i (-1))]⟩,
    ⟨"C", "A", [("interaction", .i 1)]⟩]⟩

/-- The scenario's `source_dict = {"A": 1, "B": -1}`. -/
def scenarioSources : List (String × Int) := [("A", 1), ("B", -1)]

/-- The scenario's `target_dict = {"grp": {"C": 1}}`. -/
def scenarioTargets : List (String × List (String × Int)) := [("grp", [("C", 1)])]

/-- The scenario rendered through `visualize_network` in sign-consistent
mode. -/
def scRun : Except Err (AGraph × Graph) :=
  visualize_network scenarioNetwork scenarioSources scenarioTargets "dot" "sign_consistent" none

/-- The scenario rendered through `visualize_network_sign_consistent`
directly. -/
def scSCRun : Except Err (AGraph × Graph) :=
  visualize_network_sign_consistent scenarioNetwork scenarioSources scenarioTargets "dot" none

/-- A graph whose single node is in neither role map. -/
def gUnclassified : Graph := ⟨true, [("X", [])], []⟩

/-- A graph with a source node followed by a node in neither role map. -/
def gStale : Graph := ⟨true, [("S", []), ("Y", [])], []⟩

/-- A graph whose single edge carries a `color_by` value mapped by no entry
of the edge-color table. -/
def gUnmapped : Graph :=
  ⟨true, [("A", []), ("B", [])], [⟨"A", "B", [("effect", .s "weird")]⟩]⟩

/-- A graph whose single edge lacks the `color_by` attribute. -/
def gNoColorBy : Graph :=
  ⟨true, [("A", []), ("B", [])], [⟨"A", "B", [("w", .i 3)]⟩]⟩

/-- A two-row table with a `weight` column containing a negative value. -/
def dfNeg : DFrame :=
  ⟨["weight"], [⟨"A", "B", [("weight", .i (-3))]⟩, ⟨"B", "C", [("weight", .i 2)]⟩]⟩

/-- The edge that `read_network_from_file` builds from `dfNeg`'s first row. -/
def dfNegEdge : Edge := ⟨"A", "B", [("weight", .i 3), ("sign", .i (-1))]⟩

/-- A small parent graph for the subnetwork witnesses. -/
def parentGraph : Graph :=
  ⟨true, [("A", []), ("B", []), ("C", [])],
   [⟨"A", "B", [("w", .i 1)]⟩, ⟨"B", "C", [("w", .i 2)]⟩]⟩

/-! Section: Helper lemmas: attribute dicts. -/

lemma attrGet_attrSet_self (m : AttrMap) (k : String) (v : SVal) :
    attrGet (attrSet m k v) k = some v := by
  induction m with
  | nil => simp [attrSet, attrGet]
  | cons hd tl ih =>
    obtain ⟨k', v'⟩ := hd
    by_cases h : k' = k
    · subst h; simp [attrSet, attrGet]
    · simp only [attrSet, if_neg h, attrGet]
      exact ih

lemma attrGet_attrSet_ne (m : AttrMap) (k' k : String) (v : SVal) (h : k' ≠ k) :
    attrGet (attrSet m k' v) k = attrGet m k := by
  induction m with
  | nil => simp [attrSet, attrGet, h]
  | cons hd tl ih =>
    obtain ⟨k'', v''⟩ := hd
    by_cases h2 : k'' = k'
    · subst h2
      simp only [attrSet, if_pos rfl, attrGet]
      rw [if_neg h, if_neg h]
    · simp only [attrSet, if_neg h2, attrGet]
      by_cases h3 : k'' = k
      · rw [if_pos h3, if_pos h3]
      · rw [if_neg h3, if_neg h3]
        exact ih

lemma attrGet_attrRemove_self (m : AttrMap) (k : String) :
    attrGet (attrRemove m k) k = none := by
  induction m with
  | nil => rfl
  | cons hd tl ih =>
    obtain ⟨k', v⟩ := hd
    by_cases h : k' = k
    · simp only [attrRemove, if_pos h]; exact ih
    · simp only [attrRemove, if_neg h, attrGet]
      exact ih

lemma renameInteraction_of_none {d : AttrMap} (h : attrGet d "interaction" = none) :
    renameInteraction d = d := by
  unfold renameInteraction
  rw [h]

lemma renameInteraction_no_interaction (d : AttrMap) :
    attrGet (renameInteraction d) "interaction" = none := by
  unfold renameInteraction
  cases h : attrGet d "interaction" with
  | none => exact h
  | some v =>
    rw [attrGet_attrSet_ne _ _ _ _ (by decide)]
    exact attrGet_attrRemove_self d "interaction"

lemma renameInteraction_idem (d : AttrMap) :
    renameInteraction (renameInteraction d) = renameInteraction d :=
  renameInteraction_of_none (renameInteraction_no_interaction d)

lemma map_renameInteraction_idem (o : Option AttrMap) :
    (o.map renameInteraction).map renameInteraction = o.map renameInteraction := by
  cases o <;> simp [renameInteraction_idem]

lemma map_comp_renameInteraction (o : Option AttrMap) :
    o.map (renameInteraction ∘ renameInteraction) = o.map renameInteraction := by
  cases o <;> simp [Function.comp, renameInteraction_idem]

lemma attrSet_mem_self (d : AttrMap) (k : String) (v : SVal)
    (hnd : (d.map Prod.fst).Nodup) (hmem : (k, v) ∈ d) : attrSet d k v = d := by
  induction d with
  | nil => cases hmem
  | cons hd tl ih =>
    obtain ⟨k', v'⟩ := hd
    rw [List.map_cons, List.nodup_cons] at hnd
    by_cases h : k' = k
    · subst h
      rcases List.mem_cons.mp hmem with heq | hmem'
      · cases heq
        simp [attrSet]
      · exact absurd (List.mem_map.mpr ⟨(k', v), hmem', rfl⟩) hnd.1
    · have hmem' : (k, v) ∈ tl := by
        rcases List.mem_cons.mp hmem with heq | hmem'
        · cases heq; exact absurd rfl h
        · exact hmem'
      simp only [attrSet, if_neg h]
      rw [ih hnd.2 hmem']

lemma attrUpdate_self (d : AttrMap) (hnd : (d.map Prod.fst).Nodup) :
    attrUpdate d d = d := by
  have main : ∀ l : AttrMap, (∀ kv ∈ l, kv ∈ d) →
      l.foldl (fun m kv => attrSet m kv.1 kv.2) d = d := by
    intro l
    induction l with
    | nil => intro _; rfl
    | cons kv tl ih =>
      intro hsub
      obtain ⟨k, v⟩ := kv
      have h1 : attrSet d k v = d :=
        attrSet_mem_self d k v hnd (hsub (k, v) (List.mem_cons_self _ _))
      simp only [List.foldl_cons, h1]
      exact ih (fun kv hkv => hsub kv (List.mem_cons_of_mem _ hkv))
  exact main d (fun kv hkv => hkv)

/-! Section: Helper lemmas: edge keys and lookups. -/

lemma sameKey_iff {dir : Bool} {u v x y : String} :
    sameKey dir u v x y = true ↔
      ((u = x ∧ v = y) ∨ (dir = false ∧ u = y ∧ v = x)) := by
  simp [sameKey, and_assoc]

lemma sameKey_refl (dir : Bool) (u v : String) : sameKey dir u v u v = true := by
  simp [sameKey]

lemma sameKey_symm {dir : Bool} {u v x y : String} (h : sameKey dir u v x y = true) :
    sameKey dir x y u v = true := by
  rw [sameKey_iff] at h ⊢
  tauto

lemma sameKey_trans {dir : Bool} {a b c d e f : String} (h1 : sameKey dir a b c d = true)
    (h2 : sameKey dir c d e f = true) : sameKey dir a b e f = true := by
  rw [sameKey_iff] at h1 h2 ⊢
  rcases h1 with ⟨rfl, rfl⟩ | ⟨hd1, rfl, rfl⟩ <;>
    rcases h2 with ⟨h3, h4⟩ | ⟨hd2, h3, h4⟩ <;> subst h3 <;> subst h4 <;> tauto

lemma edgeMatches_congr {dir : Bool} {u v x y : String}
    (h : sameKey dir u v x y = true) (e : Edge) :
    edgeMatches dir e u v = edgeMatches dir e x y := by
  unfold edgeMatches
  rw [Bool.eq_iff_iff]
  constructor
  · intro h1; exact sameKey_trans h1 h
  · intro h2; exact sameKey_trans h2 (sameKey_symm h)

lemma edgeMatches_both {dir : Bool} {e : Edge} {u v x y : String}
    (h1 : edgeMatches dir e u v = true) (h2 : edgeMatches dir e x y = true) :
    sameKey dir u v x y = true :=
  sameKey_trans (sameKey_symm h1) h2

lemma getEdgeData_congr {u v x y : String} (g : Graph)
    (h : sameKey g.directed u v x y = true) :
    getEdgeData g x y = getEdgeData g u v := by
  have hfun : (fun e => edgeMatches g.directed e x y) =
      (fun e => edgeMatches g.directed e u v) :=
    funext fun e => (edgeMatches_congr h e).symm
  unfold getEdgeData
  rw [hfun]

lemma edgeMatches_attrs (dir : Bool) (e : Edge) (a : AttrMap) (u v : String) :
    edgeMatches dir { e with attrs := a } u v = edgeMatches dir e u v := rfl

lemma getEdgeData_setEdgeAttrsWith (g : Graph) (u v : String) (f : AttrMap → AttrMap)
    (x y : String) :
    getEdgeData (setEdgeAttrsWith g u v f) x y =
      if sameKey g.directed u v x y = true then (getEdgeData g x y).map f
      else getEdgeData g x y := by
  unfold getEdgeData setEdgeAttrsWith
  dsimp only
  rw [List.find?_map]
  have hpred : ((fun e => edgeMatches g.directed e x y) ∘
      (fun e => if edgeMatches g.directed e u v then { e with attrs := f e.attrs } else e)) =
      (fun e => edgeMatches g.directed e x y) := by
    funext e
    dsimp only [Function.comp]
    by_cases hm : edgeMatches g.directed e u v
    · rw [if_pos hm, edgeMatches_attrs]
    · rw [if_neg hm]
  rw [hpred]
  cases hf : g.edges.find? (fun e => edgeMatches g.directed e x y) with
  | none => split <;> simp
  | some e₀ =>
    have hx : edgeMatches g.directed e₀ x y = true := by simpa using List.find?_some hf
    by_cases hs : sameKey g.directed u v x y = true
    · rw [if_pos hs]
      have hm : edgeMatches g.directed e₀ u v = true := by
        rw [edgeMatches_congr hs e₀]; exact hx
      simp [hm]
    · rw [if_neg hs]
      have hm : edgeMatches g.directed e₀ u v = false := by
        cases hmc : edgeMatches g.directed e₀ u v
        · rfl
        · exact absurd (edgeMatches_both hmc hx) hs
      simp [hm]

lemma setEdgeAttrsWith_directed (g : Graph) (u v : String) (f : AttrMap → AttrMap) :
    (setEdgeAttrsWith g u v f).directed = g.directed := rfl

lemma setEdgeAttrsWith_nodes (g : Graph) (u v : String) (f : AttrMap → AttrMap) :
    (setEdgeAttrsWith g u v f).nodes = g.nodes := rfl

lemma addNode_directed (g : Graph) (n : String) : (addNode g n).directed = g.directed := by
  unfold addNode; split <;> rfl

lemma addNode_edges (g : Graph) (n : String) : (addNode g n).edges = g.edges := by
  unfold addNode; split <;> rfl

lemma getEdgeData_addNode (g : Graph) (n u v : String) :
    getEdgeData (addNode g n) u v = getEdgeData g u v := by
  unfold getEdgeData
  rw [addNode_edges, addNode_directed]

lemma addEdge_directed (g : Graph) (u v : String) (d : AttrMap) :
    (addEdge g u v d).directed = g.directed := by
  simp only [addEdge]
  split
  · rw [setEdgeAttrsWith_directed, addNode_directed, addNode_directed]
  · show (addNode (addNode g u) v).directed = g.directed
    rw [addNode_directed, addNode_directed]

lemma getEdgeData_addEdge (g : Graph) (u v : String) (d : AttrMap) (x y : String) :
    getEdgeData (addEdge g u v d) x y =
      if sameKey g.directed u v x y = true then
        some (match getEdgeData g u v with
              | some old => attrUpdate old d
              | none => d)
      else getEdgeData g x y := by
  simp only [addEdge]
  have hdir : (addNode (addNode g u) v).directed = g.directed := by
    rw [addNode_directed, addNode_directed]
  have hedges : (addNode (addNode g u) v).edges = g.edges := by
    rw [addNode_edges, addNode_edges]
  have hget : ∀ a b : String, getEdgeData (addNode (addNode g u) v) a b = getEdgeData g a b := by
    intro a b; unfold getEdgeData; rw [hdir, hedges]
  split
  case isTrue hany =>
    rw [getEdgeData_setEdgeAttrsWith, hdir, hget]
    have hsome : ∃ old, getEdgeData g u v = some old := by
      rw [hedges, hdir] at hany
      rw [List.any_eq_true] at hany
      obtain ⟨e, he, hm⟩ := hany
      unfold getEdgeData
      cases hf : g.edges.find? (fun e => edgeMatches g.directed e u v) with
      | none =>
        rw [List.find?_eq_none] at hf
        exact absurd hm (hf e he)
      | some e₀ => exact ⟨e₀.attrs, rfl⟩
    obtain ⟨old, hold⟩ := hsome
    by_cases hs : sameKey g.directed u v x y = true
    · rw [if_pos hs, if_pos hs, getEdgeData_congr g hs, hold]
      rfl
    · rw [if_neg hs, if_neg hs]
  case isFalse hany =>
    rw [hedges, hdir] at hany
    have hnot : ∀ e ∈ g.edges, ¬ edgeMatches g.directed e u v = true := by
      intro e he hm
      exact hany (List.any_eq_true.mpr ⟨e, he, hm⟩)
    have hnone : getEdgeData g u v = none := by
      unfold getEdgeData
      rw [List.find?_eq_none.mpr hnot]
      rfl
    rw [hnone]
    unfold getEdgeData
    dsimp only
    rw [hdir, hedges, List.find?_append]
    by_cases hs : sameKey g.directed u v x y = true
    · rw [if_pos hs]
      have h1 : g.edges.find? (fun e => edgeMatches g.directed e x y) = none := by
        rw [List.find?_eq_none]
        intro e he hm
        exact hnot e he (by rw [edgeMatches_congr hs e]; exact hm)
      have h2 : edgeMatches g.directed ⟨u, v, d⟩ x y = true := hs
      rw [h1, Option.none_or, List.find?_singleton, if_pos h2]
      rfl
    · rw [if_neg hs]
      have h2 : ¬ edgeMatches g.directed ⟨u, v, d⟩ x y = true := hs
      rw [List.find?_singleton, if_neg h2, Option.or_none]

lemma getEdgeData_addEdge_isSome (g : Graph) (u v : String) (d : AttrMap) (x y : String)
    (h : sameKey g.directed u v x y = true) :
    (getEdgeData (addEdge g u v d) x y).isSome = true := by
  rw [getEdgeData_addEdge, if_pos h]
  rfl

lemma getEdgeData_addEdge_isSome_mono (g : Graph) (u v : String) (d : AttrMap) (x y : String)
    (h : (getEdgeData g x y).isSome = true) :
    (getEdgeData (addEdge g u v d) x y).isSome = true := by
  rw [getEdgeData_addEdge]
  split
  · rfl
  · exact h

/-! Section: Helper lemmas: edge multiplicity. -/

lemma edgeCount_setEdgeAttrsWith (g : Graph) (u v : String) (f : AttrMap → AttrMap)
    (x y : String) :
    edgeCount (setEdgeAttrsWith g u v f) x y = edgeCount g x y := by
  unfold edgeCount setEdgeAttrsWith
  dsimp only
  rw [List.filter_map]
  have hpred : ((fun e => edgeMatches g.directed e x y) ∘
      (fun e => if edgeMatches g.directed e u v then { e with attrs := f e.attrs } else e)) =
      (fun e => edgeMatches g.directed e x y) := by
    funext e
    dsimp only [Function.comp]
    by_cases hm : edgeMatches g.directed e u v
    · rw [if_pos hm, edgeMatches_attrs]
    · rw [if_neg hm]
  rw [hpred, List.length_map]

lemma edgeCount_pos_of_isSome (g : Graph) (x y : String)
    (h : (getEdgeData g x y).isSome = true) : 0 < edgeCount g x y := by
  unfold getEdgeData at h
  unfold edgeCount
  cases hf : g.edges.find? (fun e => edgeMatches g.directed e x y) with
  | none => rw [hf] at h; cases h
  | some e₀ =>
    have hm : edgeMatches g.directed e₀ x y = true := by simpa using List.find?_some hf
    have hmem : e₀ ∈ g.edges := List.mem_of_find?_eq_some hf
    rw [List.length_pos]
    intro hnil
    have : e₀ ∈ g.edges.filter (fun e => edgeMatches g.directed e x y) :=
      List.mem_filter.mpr ⟨hmem, hm⟩
    rw [hnil] at this
    cases this

lemma isSome_of_edgeCount_pos (g : Graph) (x y : String)
    (h : 0 < edgeCount g x y) : (getEdgeData g x y).isSome = true := by
  unfold edgeCount at h
  rw [List.length_pos] at h
  obtain ⟨e₀, he₀⟩ := List.exists_mem_of_ne_nil _ h
  have := List.mem_filter.mp he₀
  unfold getEdgeData
  cases hf : g.edges.find? (fun e => edgeMatches g.directed e x y) with
  | none =>
    rw [List.find?_eq_none] at hf
    exact absurd this.2 (hf e₀ this.1)
  | some e₁ => rfl

lemma edgeCount_addEdge (g : Graph) (u v : String) (d : AttrMap) (x y : String) :
    edgeCount (addEdge g u v d) x y =
      if sameKey g.directed u v x y = true then max 1 (edgeCount g x y)
      else edgeCount g x y := by
  simp only [addEdge]
  have hdir : (addNode (addNode g u) v).directed = g.directed := by
    rw [addNode_directed, addNode_directed]
  have hedges : (addNode (addNode g u) v).edges = g.edges := by
    rw [addNode_edges, addNode_edges]
  have hcnt : ∀ a b : String, edgeCount (addNode (addNode g u) v) a b = edgeCount g a b := by
    intro a b; unfold edgeCount; rw [hdir, hedges]
  split
  case isTrue hany =>
    rw [edgeCount_setEdgeAttrsWith, hcnt]
    by_cases hs : sameKey g.directed u v x y = true
    · rw [hedges, hdir, List.any_eq_true] at hany
      obtain ⟨e, he, hm⟩ := hany
      have hmx : edgeMatches g.directed e x y = true := by
        rw [← edgeMatches_congr hs e]; exact hm
      have hpos : 0 < edgeCount g x y := by
        unfold edgeCount
        rw [List.length_pos]
        intro hnil
        have hin : e ∈ g.edges.filter (fun e => edgeMatches g.directed e x y) :=
          List.mem_filter.mpr ⟨he, hmx⟩
        rw [hnil] at hin
        cases hin
      rw [if_pos hs, Nat.max_eq_right hpos]
    · rw [if_neg hs]
  case isFalse hany =>
    rw [hedges, hdir] at hany
    have hnot : ∀ e ∈ g.edges, ¬ edgeMatches g.directed e u v = true := by
      intro e he hm
      exact hany (List.any_eq_true.mpr ⟨e, he, hm⟩)
    unfold edgeCount
    dsimp only
    rw [hdir, hedges, List.filter_append, List.length_append]
    by_cases hs : sameKey g.directed u v x y = true
    · have hzero : g.edges.filter (fun e => edgeMatches g.directed e x y) = [] := by
        rw [List.filter_eq_nil_iff]
        intro e he hm
        exact hnot e he (by rw [edgeMatches_congr hs e]; exact hm)
      have h2 : edgeMatches g.directed ⟨u, v, d⟩ x y = true := hs
      rw [if_pos hs, hzero, List.filter_cons, if_pos h2]
      rfl
    · have h2 : ¬ edgeMatches g.directed ⟨u, v, d⟩ x y = true := hs
      rw [if_neg hs, List.filter_cons, if_neg h2]
      rfl

lemma edgeCount_addEdge_le (g : Graph) (u v : String) (d : AttrMap) (x y : String)
    (h : edgeCount g x y ≤ 1) : edgeCount (addEdge g u v d) x y ≤ 1 := by
  rw [edgeCount_addEdge]
  split
  · exact Nat.max_le.mpr ⟨Nat.le_refl 1, h⟩
  · exact h

/-! Section: Helper lemmas: the subnetwork loops. -/

lemma addPathEdges_total (network : Graph) (prs : List (String × String))
    (h : ∀ pr ∈ prs, (getEdgeData network pr.1 pr.2).isSome = true) :
    ∀ sub : Graph, ∃ sub', addPathEdges network sub prs = .ok sub' := by
  induction prs with
  | nil => intro sub; exact ⟨sub, rfl⟩
  | cons pr rest ih =>
    intro sub
    obtain ⟨a, b⟩ := pr
    have h1 := h (a, b) (List.mem_cons_self _ _)
    simp only [addPathEdges]
    cases hd : getEdgeData network a b with
    | none => rw [hd] at h1; simp at h1
    | some d =>
      exact ih (fun pr hpr => h pr (List.mem_cons_of_mem _ hpr)) (addEdge sub a b d)

lemma addPathEdges_missing (network : Graph) (a b : String)
    (hmiss : getEdgeData network a b = none) :
    ∀ (prs : List (String × String)) (sub : Graph), (a, b) ∈ prs →
      ∃ err, addPathEdges network sub prs = .error err := by
  intro prs
  induction prs with
  | nil => intro sub h; cases h
  | cons pr rest ih =>
    intro sub hmem
    obtain ⟨c, d⟩ := pr
    simp only [addPathEdges]
    cases hcd : getEdgeData network c d with
    | none => exact ⟨.missingEdge c d, rfl⟩
    | some dd =>
      rcases List.mem_cons.mp hmem with heq | hmem'
      · injection heq with h1 h2
        subst h1; subst h2
        rw [hmiss] at hcd
        exact Option.noConfusion hcd
      · exact ih (addEdge sub c d dd) hmem'

lemma addPathEdges_isSome_mono (network : Graph) (x y : String) :
    ∀ (prs : List (String × String)) (sub sub' : Graph),
      addPathEdges network sub prs = .ok sub' →
      (getEdgeData sub x y).isSome = true → (getEdgeData sub' x y).isSome = true := by
  intro prs
  induction prs with
  | nil =>
    intro sub sub' h hx
    simp only [addPathEdges] at h
    injection h with h'
    rw [← h']; exact hx
  | cons pr rest ih =>
    intro sub sub' h hx
    obtain ⟨a, b⟩ := pr
    simp only [addPathEdges] at h
    cases hd : getEdgeData network a b with
    | none => rw [hd] at h; exact Except.noConfusion h
    | some d =>
      rw [hd] at h
      exact ih (addEdge sub a b d) sub' h (getEdgeData_addEdge_isSome_mono sub a b d x y hx)

lemma addPathEdges_pairs_isSome (network : Graph) :
    ∀ (prs : List (String × String)) (sub sub' : Graph),
      addPathEdges network sub prs = .ok sub' →
      ∀ pr ∈ prs, (getEdgeData sub' pr.1 pr.2).isSome = true := by
  intro prs
  induction prs with
  | nil => intro sub sub' h pr hpr; cases hpr
  | cons hd rest ih =>
    intro sub sub' h pr hpr
    obtain ⟨a, b⟩ := hd
    simp only [addPathEdges] at h
    cases hd2 : getEdgeData network a b with
    | none => rw [hd2] at h; exact Except.noConfusion h
    | some d =>
      rw [hd2] at h
      rcases List.mem_cons.mp hpr with rfl | hpr'
      · exact addPathEdges_isSome_mono network a b rest (addEdge sub a b d) sub' h
          (getEdgeData_addEdge_isSome sub a b d a b (sameKey_refl _ a b))
      · exact ih (addEdge sub a b d) sub' h pr hpr'

lemma addPathEdges_count_le (network : Graph) (x y : String) :
    ∀ (prs : List (String × String)) (sub sub' : Graph),
      addPathEdges network sub prs = .ok sub' →
      edgeCount sub x y ≤ 1 → edgeCount sub' x y ≤ 1 := by
  intro prs
  induction prs with
  | nil =>
    intro sub sub' h hx
    simp only [addPathEdges] at h
    injection h with h'
    rw [← h']; exact hx
  | cons pr rest ih =>
    intro sub sub' h hx
    obtain ⟨a, b⟩ := pr
    simp only [addPathEdges] at h
    cases hd : getEdgeData network a b with
    | none => rw [hd] at h; exact Except.noConfusion h
    | some d =>
      rw [hd] at h
      exact ih (addEdge sub a b d) sub' h (edgeCount_addEdge_le sub a b d x y hx)

lemma getEdgeData_mem (g : Graph) (u v : String) (d : AttrMap)
    (h : getEdgeData g u v = some d) : ∃ e ∈ g.edges, e.attrs = d := by
  unfold getEdgeData at h
  cases hf : g.edges.find? (fun e => edgeMatches g.directed e u v) with
  | none => rw [hf] at h; exact Option.noConfusion h
  | some e₀ =>
    rw [hf] at h
    injection h with h'
    exact ⟨e₀, List.mem_of_find?_eq_some hf, h'⟩

lemma subFaithful_addEdge (network sub : Graph) (a b : String) (d : AttrMap)
    (hnodup : ∀ e ∈ network.edges, (e.attrs.map Prod.fst).Nodup)
    (hd : getEdgeData network a b = some d)
    (hsub : SubFaithful network sub) : SubFaithful network (addEdge sub a b d) := by
  obtain ⟨hdir, hval⟩ := hsub
  constructor
  · rw [addEdge_directed]; exact hdir
  · intro x y dd hdd
    rw [getEdgeData_addEdge] at hdd
    by_cases hs : sameKey sub.directed a b x y = true
    · rw [if_pos hs] at hdd
      have hnet : getEdgeData network x y = getEdgeData network a b := by
        apply getEdgeData_congr
        rw [← hdir]
        exact hs
      cases hss : getEdgeData sub a b with
      | none =>
        rw [hss] at hdd
        injection hdd with hdd'
        dsimp only at hdd'
        rw [hnet, hd, hdd']
      | some old =>
        rw [hss] at hdd
        injection hdd with hdd'
        dsimp only at hdd'
        have hov := hval a b old hss
        rw [hd] at hov
        injection hov with hov'
        subst hov'
        have hnd : (d.map Prod.fst).Nodup := by
          obtain ⟨e, he, hattrs⟩ := getEdgeData_mem network a b d hd
          rw [← hattrs]; exact hnodup e he
        rw [attrUpdate_self d hnd] at hdd'
        rw [hnet, hd, hdd']
    · rw [if_neg hs] at hdd
      exact hval x y dd hdd

lemma addPathEdges_faithful (network : Graph)
    (hnodup : ∀ e ∈ network.edges, (e.attrs.map Prod.fst).Nodup) :
    ∀ (prs : List (String × String)) (sub sub' : Graph),
      addPathEdges network sub prs = .ok sub' →
      SubFaithful network sub → SubFaithful network sub' := by
  intro prs
  induction prs with
  | nil =>
    intro sub sub' h hx
    simp only [addPathEdges] at h
    injection h with h'
    rw [← h']; exact hx
  | cons pr rest ih =>
    intro sub sub' h hx
    obtain ⟨a, b⟩ := pr
    simp only [addPathEdges] at h
    cases hd : getEdgeData network a b with
    | none => rw [hd] at h; exact Except.noConfusion h
    | some d =>
      rw [hd] at h
      exact ih (addEdge sub a b d) sub' h (subFaithful_addEdge network sub a b d hnodup hd hx)

lemma subnetLoop_total (network : Graph) :
    ∀ (paths : List (List String)) (sub : Graph),
      (∀ pth ∈ paths, ∀ pr ∈ consecPairs pth,
        (getEdgeData network pr.1 pr.2).isSome = true) →
      ∃ sub', subnetLoop network sub paths = .ok sub' := by
  intro paths
  induction paths with
  | nil => intro sub _; exact ⟨sub, rfl⟩
  | cons q rest ih =>
    intro sub hall
    obtain ⟨sub₁, hq⟩ := addPathEdges_total network (consecPairs q)
      (hall q (List.mem_cons_self _ _)) sub
    simp only [subnetLoop]
    rw [hq]
    exact ih sub₁ (fun pth hpth => hall pth (List.mem_cons_of_mem _ hpth))

lemma subnetLoop_isSome_mono (network : Graph) (x y : String) :
    ∀ (paths : List (List String)) (sub sub' : Graph),
      subnetLoop network sub paths = .ok sub' →
      (getEdgeData sub x y).isSome = true → (getEdgeData sub' x y).isSome = true := by
  intro paths
  induction paths with
  | nil =>
    intro sub sub' h hx
    simp only [subnetLoop] at h
    injection h with h'
    rw [← h']; exact hx
  | cons q rest ih =>
    intro sub sub' h hx
    simp only [subnetLoop] at h
    cases hq : addPathEdges network sub (consecPairs q) with
    | error e => rw [hq] at h; exact Except.noConfusion h
    | ok sub₁ =>
      rw [hq] at h
      exact ih sub₁ sub' h (addPathEdges_isSome_mono network x y (consecPairs q) sub sub₁ hq hx)

lemma subnetLoop_pairs_isSome (network : Graph) :
    ∀ (paths : List (List String)) (sub sub' : Graph),
      subnetLoop network sub paths = .ok sub' →
      ∀ pth ∈ paths, ∀ pr ∈ consecPairs pth, (getEdgeData sub' pr.1 pr.2).isSome = true := by
  intro paths
  induction paths with
  | nil => intro sub sub' h pth hpth; cases hpth
  | cons q rest ih =>
    intro sub sub' h pth hpth pr hpr
    simp only [subnetLoop] at h
    cases hq : addPathEdges network sub (consecPairs q) with
    | error e => rw [hq] at h; exact Except.noConfusion h
    | ok sub₁ =>
      rw [hq] at h
      rcases List.mem_cons.mp hpth with rfl | hpth'
      · exact subnetLoop_isSome_mono network pr.1 pr.2 rest sub₁ sub' h
          (addPathEdges_pairs_isSome network (consecPairs pth) sub sub₁ hq pr hpr)
      · exact ih sub₁ sub' h pth hpth' pr hpr

lemma subnetLoop_count_le (network : Graph) (x y : String) :
    ∀ (paths : List (List String)) (sub sub' : Graph),
      subnetLoop network sub paths = .ok sub' →
      edgeCount sub x y ≤ 1 → edgeCount sub' x y ≤ 1 := by
  intro paths
  induction paths with
  | nil =>
    intro sub sub' h hx
    simp only [subnetLoop] at h
    injection h with h'
    rw [← h']; exact hx
  | cons q rest ih =>
    intro sub sub' h hx
    simp only [subnetLoop] at h
    cases hq : addPathEdges network sub (consecPairs q) with
    | error e => rw [hq] at h; exact Except.noConfusion h
    | ok sub₁ =>
      rw [hq] at h
      exact ih sub₁ sub' h (addPathEdges_count_le network x y (consecPairs q) sub sub₁ hq hx)

lemma subnetLoop_faithful (network : Graph)
    (hnodup : ∀ e ∈ network.edges, (e.attrs.map Prod.fst).Nodup) :
    ∀ (paths : List (List String)) (sub sub' : Graph),
      subnetLoop network sub paths = .ok sub' →
      SubFaithful network sub → SubFaithful network sub' := by
  intro paths
  induction paths with
  | nil =>
    intro sub sub' h hx
    simp only [subnetLoop] at h
    injection h with h'
    rw [← h']; exact hx
  | cons q rest ih =>
    intro sub sub' h hx
    simp only [subnetLoop] at h
    cases hq : addPathEdges network sub (consecPairs q) with
    | error e => rw [hq] at h; exact Except.noConfusion h
    | ok sub₁ =>
      rw [hq] at h
      exact ih sub₁ sub' h
        (addPathEdges_faithful network hnodup (consecPairs q) sub sub₁ hq hx)

lemma subFaithful_empty (network : Graph) :
    SubFaithful network ⟨network.directed, [], []⟩ := by
  constructor
  · rfl
  · intro x y dd h
    simp [getEdgeData] at h

/-! Section: C4. -/

/-- C4: if some path contains a consecutive pair `(a, b)` with no
corresponding edge in the parent graph, `get_subnetwork` fails with the
missing-edge error and returns no (partial) subnetwork. -/
theorem get_subnetwork_missing_edge (network : Graph) (paths : List (List String))
    (pth : List String) (a b : String) (hp : pth ∈ paths)
    (hab : (a, b) ∈ consecPairs pth) (hmiss : getEdgeData network a b = none) :
    ∃ err, get_subnetwork network paths = .error err := by
  have main : ∀ (ps : List (List String)) (sub : Graph), pth ∈ ps →
      ∃ err, subnetLoop network sub ps = .error err := by
    intro ps
    induction ps with
    | nil => intro sub h; cases h
    | cons q rest ih =>
      intro sub hmem
      simp only [subnetLoop]
      cases hq : addPathEdges network sub (consecPairs q) with
      | error e => exact ⟨e, rfl⟩
      | ok sub₁ =>
        rcases List.mem_cons.mp hmem with rfl | hmem'
        · obtain ⟨err, herr⟩ :=
            addPathEdges_missing network a b hmiss (consecPairs pth) sub hab
          rw [herr] at hq
          exact Except.noConfusion hq
        · exact ih sub₁ hmem'
  exact main paths ⟨network.directed, [], []⟩ hp

/-- Witness for C4 on a concrete empty parent graph and one path. -/
theorem get_subnetwork_missing_edge_witness :
    ∃ err, get_subnetwork (⟨true, [], []⟩ : Graph) [["A", "B"]] = .error err :=
  get_subnetwork_missing_edge ⟨true, [], []⟩ [["A", "B"]] ["A", "B"] "A" "B"
    (by decide) (by decide) (by decide)

/-! Section: C5. -/

/-- C5: when every consecutive pair of every path is an existing parent edge,
`get_subnetwork` succeeds and the subnetwork carries, for each traversed pair,
exactly the parent graph's attribute dict (parent dicts have unique keys, as
Python dicts do). -/
theorem get_subnetwork_edge_fidelity (network : Graph) (paths : List (List String))
    (hnodup : ∀ e ∈ network.edges, (e.attrs.map Prod.fst).Nodup)
    (hall : ∀ pth ∈ paths, ∀ pr ∈ consecPairs pth,
      (getEdgeData network pr.1 pr.2).isSome = true) :
    ∃ g, get_subnetwork network paths = .ok g ∧
      ∀ pth ∈ paths, ∀ pr ∈ consecPairs pth,
        getEdgeData g pr.1 pr.2 = getEdgeData network pr.1 pr.2 := by
  obtain ⟨g, hg⟩ := subnetLoop_total network paths ⟨network.directed, [], []⟩ hall
  refine ⟨g, hg, ?_⟩
  intro pth hpth pr hpr
  have hpres := subnetLoop_pairs_isSome network paths _ g hg pth hpth pr hpr
  have hfaith := subnetLoop_faithful network hnodup paths _ g hg (subFaithful_empty network)
  cases hdg : getEdgeData g pr.1 pr.2 with
  | none => rw [hdg] at hpres; simp at hpres
  | some dd => rw [hfaith.2 pr.1 pr.2 dd hdg]

/-- Witness for C5 on a concrete parent graph and path. -/
theorem get_subnetwork_edge_fidelity_witness :
    ∃ g, get_subnetwork parentGraph [["A", "B", "C"]] = .ok g ∧
      ∀ pth ∈ [["A", "B", "C"]], ∀ pr ∈ consecPairs pth,
        getEdgeData g pr.1 pr.2 = getEdgeData parentGraph pr.1 pr.2 :=
  get_subnetwork_edge_fidelity parentGraph [["A", "B", "C"]] (by decide) (by decide)

/-! Section: C6. -/

/-- C6: when paths traverse the same parent edge more than once — here the
pair `(a, b)` of one path and the matching pair `(a', b')` of a possibly
different path — the subnetwork contains exactly one instance of that edge. -/
theorem get_subnetwork_no_duplicate_edges (network : Graph) (paths : List (List String))
    (pth pth' : List String) (a b a' b' : String)
    (hp : pth ∈ paths) (hab : (a, b) ∈ consecPairs pth)
    (_hp' : pth' ∈ paths) (_hab' : (a', b') ∈ consecPairs pth')
    (_hrep : sameKey network.directed a b a' b' = true)
    (hall : ∀ pth ∈ paths, ∀ pr ∈ consecPairs pth,
      (getEdgeData network pr.1 pr.2).isSome = true) :
    ∃ g, get_subnetwork network paths = .ok g ∧ edgeCount g a b = 1 := by
  obtain ⟨g, hg⟩ := subnetLoop_total network paths ⟨network.directed, [], []⟩ hall
  refine ⟨g, hg, ?_⟩
  have hle : edgeCount g a b ≤ 1 := by
    apply subnetLoop_count_le network a b paths _ g hg
    simp [edgeCount]
  have hpos : 0 < edgeCount g a b := edgeCount_pos_of_isSome g a b
    (subnetLoop_pairs_isSome network paths _ g hg pth hp (a, b) hab)
  omega

/-- Witness for C6: two overlapping paths traversing the edge A→B. -/
theorem get_subnetwork_no_duplicate_edges_witness :
    ∃ g, get_subnetwork parentGraph [["A", "B"], ["A", "B", "C"]] = .ok g ∧
      edgeCount g "A" "B" = 1 :=
  get_subnetwork_no_duplicate_edges parentGraph [["A", "B"], ["A", "B", "C"]]
    ["A", "B"] ["A", "B", "C"] "A" "B" "A" "B" (by decide) (by decide) (by decide)
    (by decide) (by decide) (by decide)

/-! Section: C10. -/

/-- C10: with attribute columns beyond source/target, when the `weight`
column contains a negative value every edge's weight is replaced by its
absolute value (hence non-negative) and a `sign` attribute records the
original sign (`1` for weights `>= 0`, `-1` otherwise); when no weight is
negative the built graph is returned untouched, so weights are kept as-is and
this normalization adds no `sign` attribute. -/
theorem read_network_weight_normalization (df : DFrame) (directed : Bool)
    (hextra : df.extraCols ≠ []) :
    ((("weight" ∈ df.extraCols) ∧ df.rows.any rowWeightNeg = true) →
      ∀ e ∈ (read_network_from_file df directed).edges,
        ∃ e₀ ∈ (dfGraph df directed).edges, e.src = e₀.src ∧ e.dst = e₀.dst ∧
          ∀ w : Int, attrGet e₀.attrs "weight" = some (.i w) →
            attrGet e.attrs "weight" = some (.i |w|) ∧ 0 ≤ |w| ∧
            attrGet e.attrs "sign" = some (.i (if 0 ≤ w then 1 else -1)))
    ∧ (¬ (("weight" ∈ df.extraCols) ∧ df.rows.any rowWeightNeg = true) →
        read_network_from_file df directed = dfGraph df directed) := by
  constructor
  · intro hcond e he
    unfold read_network_from_file at he
    rw [if_neg hextra, if_pos hcond] at he
    obtain ⟨e₀, he₀, heq⟩ := List.mem_map.mp he
    refine ⟨e₀, he₀, ?_, ?_, ?_⟩
    · rw [← heq]
    · rw [← heq]
    · intro w hw
      rw [← heq]
      show attrGet (normalizeEdgeAttrs e₀.attrs) "weight" = _ ∧ _ ∧
        attrGet (normalizeEdgeAttrs e₀.attrs) "sign" = _
      unfold normalizeEdgeAttrs
      rw [hw]
      refine ⟨attrGet_attrSet_self _ _ _, abs_nonneg w, ?_⟩
      rw [attrGet_attrSet_ne _ _ _ _ (by decide)]
      exact attrGet_attrSet_self _ _ _
  · intro hcond
    unfold read_network_from_file
    rw [if_neg hextra, if_neg hcond]

/-- Witness for C10 on a concrete two-row table with a negative weight. -/
theorem read_network_weight_normalization_witness :
    ∃ e₀ ∈ (dfGraph dfNeg true).edges, dfNegEdge.src = e₀.src ∧ dfNegEdge.dst = e₀.dst ∧
      ∀ w : Int, attrGet e₀.attrs "weight" = some (.i w) →
        attrGet dfNegEdge.attrs "weight" = some (.i |w|) ∧ 0 ≤ |w| ∧
        attrGet dfNegEdge.attrs "sign" = some (.i (if 0 ≤ w then 1 else -1)) :=
  (read_network_weight_normalization dfNeg true (by decide)).1
    ⟨by decide, by decide⟩ dfNegEdge (by decide)

/-! Section: C9. -/

/-- C9: any network type other than `sign_consistent` and `default` raises
nothing on account of the unrecognized type and produces exactly the
default-mode result for the same inputs. -/
theorem visualize_network_unknown_type_falls_back (network : Graph)
    (source_dict : List (String × Int)) (target_dict : List (String × List (String × Int)))
    (prog network_type : String) (custom_style : Option SVal)
    (h1 : network_type ≠ "sign_consistent") (_h2 : network_type ≠ "default") :
    visualize_network network source_dict target_dict prog network_type custom_style =
      visualize_network network source_dict target_dict prog "default" custom_style := by
  unfold visualize_network
  rw [if_neg h1, if_neg (by decide : ¬("default" = "sign_consistent"))]

/-- Witness for C9 with the unrecognized type string `foo`. -/
theorem visualize_network_unknown_type_falls_back_witness :
    visualize_network scenarioNetwork scenarioSources scenarioTargets "dot" "foo" none =
      visualize_network scenarioNetwork scenarioSources scenarioTargets "dot" "default" none :=
  visualize_network_unknown_type_falls_back scenarioNetwork scenarioSources scenarioTargets
    "dot" "foo" none (by decide) (by decide)

/-! Section: Helper lemmas: the sign-consistent edge loop. -/

lemma processEdge_ok (style : SVal) (net : Graph) (e : AEdge) (e' : AEdge) (net₁ : Graph)
    (h : processEdge style net e = .ok (e', net₁)) :
    ∃ d v, getEdgeData net e.src e.dst = some d ∧
      attrGet (renameInteraction d) "sign" = some v ∧
      e' = { e with attrs := set_style_attributes e.attrs (dispatchEdgeStyle style v) (.m []) } ∧
      net₁ = setEdgeAttrsWith net e.src e.dst renameInteraction := by
  unfold processEdge at h
  cases hd : getEdgeData net e.src e.dst with
  | none => rw [hd] at h; exact Except.noConfusion h
  | some d =>
    rw [hd] at h
    dsimp only at h
    cases hs : attrGet (renameInteraction d) "sign" with
    | none => rw [hs] at h; exact Except.noConfusion h
    | some v =>
      rw [hs] at h
      dsimp only at h
      injection h with h'
      rw [Prod.mk.injEq] at h'
      exact ⟨d, v, rfl, hs, h'.1.symm, h'.2.symm⟩

lemma edgeLoopSC_shape (style : SVal) :
    ∀ (es : List AEdge) (net : Graph) (es' : List AEdge) (net₂ : Graph),
      edgeLoopSC style net es = .ok (es', net₂) →
      net₂.directed = net.directed ∧ net₂.nodes = net.nodes := by
  intro es
  induction es with
  | nil =>
    intro net es' net₂ h
    simp only [edgeLoopSC] at h
    injection h with h'
    rw [Prod.mk.injEq] at h'
    rw [← h'.2]
    exact ⟨rfl, rfl⟩
  | cons e rest ih =>
    intro net es' net₂ h
    simp only [edgeLoopSC] at h
    cases hp : processEdge style net e with
    | error err => rw [hp] at h; exact Except.noConfusion h
    | ok pr =>
      obtain ⟨e₁, net₁⟩ := pr
      rw [hp] at h
      dsimp only at h
      cases hl : edgeLoopSC style net₁ rest with
      | error err => rw [hl] at h; exact Except.noConfusion h
      | ok pr₂ =>
        obtain ⟨es₂, net₃⟩ := pr₂
        rw [hl] at h
        dsimp only at h
        injection h with h'
        rw [Prod.mk.injEq] at h'
        obtain ⟨_, hnet⟩ := h'
        obtain ⟨hd1, hn1⟩ := ih net₁ es₂ net₃ hl
        obtain ⟨d, v, _, _, _, hnet₁⟩ := processEdge_ok style net e e₁ net₁ hp
        rw [← hnet, hd1, hn1, hnet₁]
        exact ⟨rfl, rfl⟩

lemma edgeLoopSC_mutation (style : SVal) :
    ∀ (es : List AEdge) (net : Graph) (es' : List AEdge) (net₂ : Graph),
      edgeLoopSC style net es = .ok (es', net₂) →
      ∀ x y : String, getEdgeData net₂ x y =
        if es.any (fun e => sameKey net.directed e.src e.dst x y) = true then
          (getEdgeData net x y).map renameInteraction
        else getEdgeData net x y := by
  intro es
  induction es with
  | nil =>
    intro net es' net₂ h x y
    simp only [edgeLoopSC] at h
    injection h with h'
    rw [Prod.mk.injEq] at h'
    rw [← h'.2]
    simp
  | cons e rest ih =>
    intro net es' net₂ h x y
    simp only [edgeLoopSC] at h
    cases hp : processEdge style net e with
    | error err => rw [hp] at h; exact Except.noConfusion h
    | ok pr =>
      obtain ⟨e₁, net₁⟩ := pr
      rw [hp] at h
      dsimp only at h
      cases hl : edgeLoopSC style net₁ rest with
      | error err => rw [hl] at h; exact Except.noConfusion h
      | ok pr₂ =>
        obtain ⟨es₂, net₃⟩ := pr₂
        rw [hl] at h
        dsimp only at h
        injection h with h'
        rw [Prod.mk.injEq] at h'
        obtain ⟨_, hnet⟩ := h'
        obtain ⟨d, v, hd, hv, he₁, hnet₁⟩ := processEdge_ok style net e e₁ net₁ hp
        have hdir₁ : net₁.directed = net.directed := by
          rw [hnet₁]; rfl
        have hrec := ih net₁ es₂ net₃ hl x y
        rw [← hnet]
        rw [hdir₁, hnet₁, getEdgeData_setEdgeAttrsWith] at hrec
        rw [hrec, List.any_cons]
        by_cases hs : sameKey net.directed e.src e.dst x y = true <;>
          by_cases hr : (rest.any fun e => sameKey net.directed e.src e.dst x y) = true <;>
          simp [hs, hr, map_renameInteraction_idem, map_comp_renameInteraction]

lemma visualize_network_default_endpoints (network : Graph) (sd : List (String × Int))
    (td : List (String × List (String × Int))) (prog : String) (custom : Option SVal) :
    (visualize_network_default network sd td prog custom).edges.map (fun e => (e.src, e.dst)) =
      network.edges.map (fun e => (e.src, e.dst)) := by
  simp only [visualize_network_default, to_agraph]
  rw [List.map_map, List.map_map]
  rfl

lemma default_edges_cover (network : Graph) (sd : List (String × Int))
    (td : List (String × List (String × Int))) (prog : String) (custom : Option SVal)
    (x y : String) (d : AttrMap) (hc : getEdgeData network x y = some d) :
    ((visualize_network_default network sd td prog custom).edges.any
      (fun e => sameKey network.directed e.src e.dst x y)) = true := by
  unfold getEdgeData at hc
  have hfind : ∃ e₀, network.edges.find? (fun e => edgeMatches network.directed e x y) = some e₀ := by
    cases hf : network.edges.find? (fun e => edgeMatches network.directed e x y) with
    | none => rw [hf] at hc; exact Option.noConfusion hc
    | some e₀ => exact ⟨e₀, rfl⟩
  obtain ⟨e₀, hf⟩ := hfind
  have hm : edgeMatches network.directed e₀ x y = true := by simpa using List.find?_some hf
  have he₀ : e₀ ∈ network.edges := List.mem_of_find?_eq_some hf
  have hmem : (e₀.src, e₀.dst) ∈ network.edges.map (fun e => (e.src, e.dst)) :=
    List.mem_map.mpr ⟨e₀, he₀, rfl⟩
  rw [← visualize_network_default_endpoints network sd td prog custom] at hmem
  obtain ⟨ae, hae, haeq⟩ := List.mem_map.mp hmem
  rw [List.any_eq_true]
  refine ⟨ae, hae, ?_⟩
  rw [Prod.mk.injEq] at haeq
  rw [haeq.1, haeq.2]
  exact hm

/-- C3 amended, general form: a successful sign-consistent call leaves the
caller's graph's directedness and nodes unchanged and transforms every edge's
attribute dict by exactly the `interaction`→`sign` rename (the identity on
dicts without `interaction`). -/
theorem sign_consistent_mutation_is_rename (network : Graph) (sd : List (String × Int))
    (td : List (String × List (String × Int))) (prog : String) (custom : Option SVal)
    (A : AGraph) (net' : Graph)
    (h : visualize_network_sign_consistent network sd td prog custom = .ok (A, net')) :
    net'.directed = network.directed ∧ net'.nodes = network.nodes ∧
    ∀ x y : String, getEdgeData net' x y = (getEdgeData network x y).map renameInteraction := by
  simp only [visualize_network_sign_consistent] at h
  split at h
  · exact Except.noConfusion h
  · split at h
    · exact Except.noConfusion h
    · next edges' network₂ hl =>
      injection h with h'
      rw [Prod.mk.injEq] at h'
      obtain ⟨_, hnet⟩ := h'
      obtain ⟨hdir, hnodes⟩ := edgeLoopSC_shape _ _ _ _ _ hl
      refine ⟨by rw [← hnet]; exact hdir, by rw [← hnet]; exact hnodes, ?_⟩
      intro x y
      rw [← hnet, edgeLoopSC_mutation _ _ _ _ _ hl x y]
      cases hc : getEdgeData network x y with
      | none => split <;> rfl
      | some d =>
        rw [if_pos (default_edges_cover network sd td prog
          (some (merge_styles (dget get_styles "sign_consistent") custom)) x y d hc)]

/-- Witness for the amended C3 at the concrete scenario. -/
theorem sign_consistent_mutation_is_rename_witness :
    (exGraph scSCRun).nodes = scenarioNetwork.nodes ∧
    getEdgeData (exGraph scSCRun) "A" "B" =
      (getEdgeData scenarioNetwork "A" "B").map renameInteraction := by
  have h := sign_consistent_mutation_is_rename scenarioNetwork scenarioSources scenarioTargets
    "dot" none (exAGraph scSCRun) (exGraph scSCRun) (by decide)
  exact ⟨h.2.1, h.2.2 "A" "B"⟩

lemma edgeLoopSC_styles (style : SVal) :
    ∀ (es : List AEdge) (net : Graph) (es' : List AEdge) (net₂ : Graph),
      edgeLoopSC style net es = .ok (es', net₂) →
      ∀ e' ∈ es', ∃ e ∈ es, ∃ d v, getEdgeData net e.src e.dst = some d ∧
        attrGet (renameInteraction d) "sign" = some v ∧
        e' = { e with attrs := set_style_attributes e.attrs (dispatchEdgeStyle style v) (.m []) } := by
  intro es
  induction es with
  | nil =>
    intro net es' net₂ h e' he'
    simp only [edgeLoopSC] at h
    injection h with h'
    rw [Prod.mk.injEq] at h'
    rw [← h'.1] at he'
    cases he'
  | cons e rest ih =>
    intro net es' net₂ h e' he'
    simp only [edgeLoopSC] at h
    cases hp : processEdge style net e with
    | error err => rw [hp] at h; exact Except.noConfusion h
    | ok pr =>
      obtain ⟨e₁, net₁⟩ := pr
      rw [hp] at h
      dsimp only at h
      cases hl : edgeLoopSC style net₁ rest with
      | error err => rw [hl] at h; exact Except.noConfusion h
      | ok pr₂ =>
        obtain ⟨es₂, net₃⟩ := pr₂
        rw [hl] at h
        dsimp only at h
        injection h with h'
        rw [Prod.mk.injEq] at h'
        obtain ⟨hes, _⟩ := h'
        rw [← hes] at he'
        obtain ⟨d, v, hd, hv, he₁, hnet₁⟩ := processEdge_ok style net e e₁ net₁ hp
        rcases List.mem_cons.mp he' with rfl | he''
        · exact ⟨e, List.mem_cons_self _ _, d, v, hd, hv, he₁⟩
        · obtain ⟨e₂, he₂, d₁, v₁, hd₁, hv₁, hshape⟩ := ih net₁ es₂ net₃ hl e' he''
          rw [hnet₁, getEdgeData_setEdgeAttrsWith] at hd₁
          by_cases hs : sameKey net.directed e.src e.dst e₂.src e₂.dst = true
          · rw [if_pos hs] at hd₁
            cases hc : getEdgeData net e₂.src e₂.dst with
            | none => rw [hc] at hd₁; exact Option.noConfusion hd₁
            | some d₀ =>
              rw [hc] at hd₁
              injection hd₁ with hd₁'
              refine ⟨e₂, List.mem_cons_of_mem _ he₂, d₀, v₁, hc, ?_, hshape⟩
              rw [← hd₁', renameInteraction_idem] at hv₁
              exact hv₁
          · rw [if_neg hs] at hd₁
            exact ⟨e₂, List.mem_cons_of_mem _ he₂, d₁, v₁, hd₁, hv₁, hshape⟩

/-- C8: every edge of a successful sign-consistent rendering carries the
style dispatched on its (renamed) sign value: the positive edge style for
sign `1`, the negative one for sign `-1`, and the neutral one for any other
value, written over the default-pass edge. -/
theorem sign_consistent_edge_dispatch (network : Graph) (sd : List (String × Int))
    (td : List (String × List (String × Int))) (prog : String) (custom : Option SVal)
    (A : AGraph) (net' : Graph)
    (h : visualize_network_sign_consistent network sd td prog custom = .ok (A, net')) :
    ∀ e' ∈ A.edges,
      ∃ e ∈ (visualize_network_default network sd td prog
          (some (merge_styles (dget get_styles "sign_consistent") custom))).edges,
        ∃ d v, getEdgeData network e.src e.dst = some d ∧
          attrGet (renameInteraction d) "sign" = some v ∧
          e' = { e with attrs := (set_style_attributes e.attrs
                  (dispatchEdgeStyle (merge_styles (dget get_styles "sign_consistent") custom) v)
                  (.m [])) } := by
  simp only [visualize_network_sign_consistent] at h
  split at h
  · exact Except.noConfusion h
  · split at h
    · exact Except.noConfusion h
    · next edges' network₂ hl =>
      injection h with h'
      rw [Prod.mk.injEq] at h'
      obtain ⟨hA, _⟩ := h'
      intro e' he'
      have hAe : A.edges = edges' := by rw [← hA]
      rw [hAe] at he'
      exact edgeLoopSC_styles _ _ _ _ _ hl e' he'

/-- Witness for C8 at the concrete scenario: its first styled edge A→B. -/
theorem sign_consistent_edge_dispatch_witness :
    ∃ e ∈ (visualize_network_default scenarioNetwork scenarioSources scenarioTargets "dot"
        (some (merge_styles (dget get_styles "sign_consistent") none))).edges,
      ∃ d v, getEdgeData scenarioNetwork e.src e.dst = some d ∧
        attrGet (renameInteraction d) "sign" = some v ∧
        (⟨"A", "B", [("interaction", SVal.i 1), ("color", SVal.s "sign.edges.positive")]⟩ : AEdge)
          = { e with attrs := (set_style_attributes e.attrs
                (dispatchEdgeStyle (merge_styles (dget get_styles "sign_consistent") none) v)
                (.m [])) } :=
  sign_consistent_edge_dispatch scenarioNetwork scenarioSources scenarioTargets "dot" none
    (exAGraph scSCRun) (exGraph scSCRun) (by decide)
    ⟨"A", "B", [("interaction", SVal.i 1), ("color", SVal.s "sign.edges.positive")]⟩ (by decide)

/-! Section: C2. -/

/-- C2 (code bug): a node in neither role map does not keep only its base
style.  When it is the first node, the `nodes_type` local is still unbound
and the call raises `UnboundLocalError`; when a classified node precedes it,
the stale `nodes_type` makes the evaluator apply that type's
`positive_consistent` condition style to the unclassified node. -/
theorem sign_consistent_unclassified_node_bug :
    visualize_network_sign_consistent gUnclassified [] [] "dot" none
      = .error .unboundLocal ∧
    aNodeAttr (exAGraph (visualize_network_sign_consistent gStale [("S", 1)] [] "dot" none))
      "Y" "fillcolor" = some (.s "sign.sources.positive") :=
  ⟨by decide, by decide⟩

/-! Section: C1. -/

/-- C1 counterexample: the claimed styling of the end-to-end scenario is
false on the code — node B, a source with perturbation `-1`, is styled
`positive_consistent`, not `negative_consistent`, because the evaluator
fetches sign values only from the flattened target map with default `1`. -/
theorem scenario_claimed_styling_false :
    ¬ (scRun.isOk = true ∧
       aNodeAttr (exAGraph scRun) "A" "fillcolor" = some (.s "sign.sources.positive") ∧
       aNodeAttr (exAGraph scRun) "B" "fillcolor" = some (.s "sign.sources.negative") ∧
       aNodeAttr (exAGraph scRun) "C" "fillcolor" = some (.s "sign.targets.positive") ∧
       aEdgeAttr (exAGraph scRun) "A" "B" "color" = some (.s "sign.edges.positive") ∧
       aEdgeAttr (exAGraph scRun) "B" "C" "color" = some (.s "sign.edges.negative") ∧
       aEdgeAttr (exAGraph scRun) "C" "A" "color" = some (.s "sign.edges.positive")) := by
  decide

/-- C1 amended: the scenario succeeds and styles node A `positive_consistent`,
node B `positive_consistent` (sign values come only from the flattened target
map, defaulting to `1`, so source perturbation signs are ignored), node C
`positive_consistent`, edges A→B and C→A positive, and edge B→C negative. -/
theorem scenario_styling_amended :
    scRun.isOk = true ∧
    aNodeAttr (exAGraph scRun) "A" "fillcolor" = some (.s "sign.sources.positive") ∧
    aNodeAttr (exAGraph scRun) "B" "fillcolor" = some (.s "sign.sources.positive") ∧
    aNodeAttr (exAGraph scRun) "C" "fillcolor" = some (.s "sign.targets.positive") ∧
    aEdgeAttr (exAGraph scRun) "A" "B" "color" = some (.s "sign.edges.positive") ∧
    aEdgeAttr (exAGraph scRun) "B" "C" "color" = some (.s "sign.edges.negative") ∧
    aEdgeAttr (exAGraph scRun) "C" "A" "color" = some (.s "sign.edges.positive") := by
  decide

/-! Section: C3. -/

/-- C3 counterexample: after a successful sign-consistent call the caller's
graph is changed — edge A→B has lost its `interaction` key and gained a
`sign` key. -/
theorem sign_consistent_caller_graph_changed :
    scSCRun.isOk = true ∧
    exGraph scSCRun ≠ scenarioNetwork ∧
    getEdgeData (exGraph scSCRun) "A" "B" = some [("sign", SVal.i 1)] ∧
    getEdgeData scenarioNetwork "A" "B" = some [("interaction", SVal.i 1)] :=
  ⟨by decide, by decide, by decide, by decide⟩

/-! Section: C7. -/

/-- C7 counterexample: an edge whose `color_by` value is present but unmapped
makes `color_edges` raise the unmapped-color error even though the table's
`default` entry exists. -/
theorem color_edges_unmapped_raises_despite_default :
    color_edges (NetworkXVisualizer.init gUnmapped "effect") = .error .unmappedColor ∧
    svalFind (dget (dget get_styles "default") "edges") "default" =
      some (.s "default.edges.default") :=
  ⟨by decide, by decide⟩

lemma edgeColor_error_is_unmapped (t : SVal) (cb : String) (d : AttrMap) (err : Err)
    (h : edgeColor t cb d = .error err) : err = .unmappedColor := by
  unfold edgeColor at h
  split at h
  · split at h
    · exact Except.noConfusion h
    · injection h with h'; exact h'.symm
  · injection h with h'; exact h'.symm
  · injection h with h'; exact h'.symm
  · split at h
    · exact Except.noConfusion h
    · injection h with h'; exact h'.symm

lemma colorEdgesLoop_ok_all (t : SVal) (cb : String) :
    ∀ (es es' : List Edge), colorEdgesLoop t cb es = .ok es' →
      ∀ e ∈ es, ∃ c, edgeColor t cb e.attrs = .ok c := by
  intro es
  induction es with
  | nil => intro es' h e he; cases he
  | cons e₀ rest ih =>
    intro es' h e he
    simp only [colorEdgesLoop] at h
    cases hc : edgeColor t cb e₀.attrs with
    | error err => rw [hc] at h; exact Except.noConfusion h
    | ok c =>
      rw [hc] at h
      dsimp only at h
      cases hl : colorEdgesLoop t cb rest with
      | error err => rw [hl] at h; exact Except.noConfusion h
      | ok rest' =>
        rcases List.mem_cons.mp he with rfl | he'
        · exact ⟨c, hc⟩
        · exact ih rest' hl e he'

lemma colorEdgesLoop_error_is_unmapped (t : SVal) (cb : String) :
    ∀ (es : List Edge) (err : Err), colorEdgesLoop t cb es = .error err →
      err = .unmappedColor := by
  intro es
  induction es with
  | nil => intro err h; exact Except.noConfusion h
  | cons e₀ rest ih =>
    intro err h
    simp only [colorEdgesLoop] at h
    cases hc : edgeColor t cb e₀.attrs with
    | error err₀ =>
      rw [hc] at h
      injection h with h'
      rw [← h']
      exact edgeColor_error_is_unmapped t cb e₀.attrs err₀ hc
    | ok c =>
      rw [hc] at h
      dsimp only at h
      cases hl : colorEdgesLoop t cb rest with
      | error err₀ =>
        rw [hl] at h
        injection h with h'
        rw [← h']
        exact ih err₀ hl
      | ok rest' => rw [hl] at h; exact Except.noConfusion h

/-- C7 amended: `color_edges` falls back to the table's `default` entry only
when an edge lacks the `color_by` attribute; when the attribute is present,
its value is looked up directly in the edge-color table, and an unmapped
value raises the `KeyError`-equivalent even though the `default` entry
exists. -/
theorem color_edges_fallback_only_when_attribute_absent :
    (∀ (vis : NetworkXVisualizer) (e : Edge) (key : String),
      e ∈ vis.network.edges →
      attrGet e.attrs vis.color_by = some (.s key) →
      svalFind (dget (dget get_styles "default") "edges") key = none →
      color_edges vis = .error .unmappedColor) ∧
    (∀ (cb : String) (d : AttrMap), attrGet d cb = none →
      edgeColor (dget (dget get_styles "default") "edges") cb d =
        .ok (.s "default.edges.default")) := by
  constructor
  · intro vis e key he hv hu
    have herr : edgeColor (dget (dget get_styles "default") "edges") vis.color_by e.attrs
        = .error .unmappedColor := by
      unfold edgeColor
      rw [hv]
      dsimp only
      rw [hu]
    unfold color_edges
    dsimp only
    cases hl : colorEdgesLoop (dget (dget get_styles "default") "edges")
        vis.color_by vis.network.edges with
    | ok es' =>
      obtain ⟨c, hc⟩ := colorEdgesLoop_ok_all _ _ _ _ hl e he
      rw [herr] at hc
      exact Except.noConfusion hc
    | error err =>
      dsimp only
      rw [colorEdgesLoop_error_is_unmapped _ _ _ _ hl]
  · intro cb d hnone
    unfold edgeColor
    rw [hnone]
    exact rfl

/-- Witness for the amended C7: both halves at concrete inputs. -/
theorem color_edges_fallback_only_when_attribute_absent_witness :
    color_edges (NetworkXVisualizer.init gUnmapped "effect") = .error .unmappedColor ∧
    edgeColor (dget (dget get_styles "default") "edges") "effect" [("w", SVal.i 3)] =
      .ok (.s "default.edges.default") :=
  ⟨color_edges_fallback_only_when_attribute_absent.1 (NetworkXVisualizer.init gUnmapped "effect")
      ⟨"A", "B", [("effect", .s "weird")]⟩ "weird" (by decide) (by decide) (by decide),
   color_edges_fallback_only_when_attribute_absent.2 "effect" [("w", SVal.i 3)] (by decide)⟩

end NetworkCommons
